import Mathlib

/-!
Verification of the lesynth additive-synthesis engine core.

The definitions below are a shallow embedding of the Rust sources:
`src/constants.rs`, `src/voice.rs` and `src/engine/shared_params.rs`.
Rust `f64`/`f32` arithmetic is modelled over `ℝ`, machine integers over
`ℕ`/`ℤ`, `Option` stays `Option`, and the `Arc<Mutex<...>>` fields of
`SharedParams` become plain fields of a Lean structure, with the mutating
methods embedded as state transformers `SharedParams → SharedParams`.
-/

namespace LeSynth

/-! ### Constants (src/constants.rs) -/

def NUM_HARMONICS : ℕ := 64

def NUM_KEYS : ℕ := 88

def NUM_OF_BUCKETS_DEFAULT : ℕ := 70

def NUM_OF_BUCKETS_MIN : ℤ := 30

def NUM_OF_BUCKETS_MAX : ℤ := 2000

noncomputable def MIN_OFFSET_AMP : ℝ := 0.0

noncomputable def MAX_OFFSET_AMP : ℝ := 1.0

noncomputable def MIN_AMP_SINE_AMP : ℝ := 0.0

noncomputable def MAX_AMP_SINE_AMP : ℝ := 1.0

noncomputable def MIN_OFFSET_PHASE : ℝ := 0.0

noncomputable def MAX_OFFSET_PHASE : ℝ := 6.28

noncomputable def MIN_PHASE_SINE_AMP : ℝ := 0.0

noncomputable def MAX_PHASE_SINE_AMP : ℝ := 6.28

noncomputable def MIN_SINE_FREQ : ℝ := 0.0

noncomputable def MAX_SINE_FREQ : ℝ := 0.35

noncomputable def SAMPLE_RATE : ℝ := 44100.0

noncomputable def NYQUIST_FREQUENCY : ℝ := SAMPLE_RATE / 2.0

/-- The fundamental frequency of a piano key: A0 (key 0) is 27.5 Hz and each
key increases by the factor 2^(1/12).  This formula appears verbatim both in
`max_harmonic_for_key` (src/constants.rs, local `fundamental_freq`) and in
`SharedParams::populate_piano_periods` (src/engine/shared_params.rs, local
`frequency`). -/
noncomputable def key_frequency (key : ℕ) : ℝ := 27.5 * (2 : ℝ) ^ ((key : ℝ) / 12)

/-- `max_harmonic_for_key` from src/constants.rs: the maximum usable harmonic
number for a given piano key (harmonic frequency must stay below the Nyquist
frequency), clamped to the available `NUM_HARMONICS`.  Out-of-range keys give
0.  The Rust `as usize` cast of the nonnegative `floor` result is `Int.toNat`. -/
noncomputable def max_harmonic_for_key (key : ℕ) : ℕ :=
  if key ≥ NUM_KEYS then 0
  else min (⌊NYQUIST_FREQUENCY / key_frequency key⌋).toNat NUM_HARMONICS

/-- The uncapped aliasing bound computed inside `max_harmonic_for_key`
(the Rust local `max_harmonic` before `.min(NUM_HARMONICS)`); the spec calls
this quantity `aliasing_cap(key)`. -/
noncomputable def aliasing_cap (key : ℕ) : ℕ :=
  (⌊NYQUIST_FREQUENCY / key_frequency key⌋).toNat

/-! ### Voice (src/voice.rs) -/

structure Voice where
  buffer : List ℝ
  idx : ℕ
  fade_in_active : Bool
  fade_in_pos : ℕ
  fade_out_active : Bool
  fade_out_pos : ℕ

/-- `Voice::new` from src/voice.rs. -/
def Voice.new (buffer : List ℝ) : Voice :=
  { buffer := buffer
    idx := 0
    fade_in_active := true
    fade_in_pos := 0
    fade_out_active := false
    fade_out_pos := 0 }

/-- `Voice::is_fading` from src/voice.rs. -/
def Voice.is_fading (v : Voice) : Bool :=
  v.fade_in_active || v.fade_out_active

/-- `Voice::start_fade_out` from src/voice.rs. -/
def Voice.start_fade_out (v : Voice) : Voice :=
  { v with fade_out_active := true, fade_out_pos := 0 }

/-! ### SharedParams (src/engine/shared_params.rs) -/

inductive BufferState where
  | Clean
  | Dirty
  | Computing
deriving DecidableEq

structure SharedParams where
  amplitude_data : List (List ℝ)
  amplitude_data_normalized : List (List ℝ)
  phase_data : List (List ℝ)
  voices : List (Option Voice)
  assembled_sound_plotted : List ℝ
  piano_periods : List ℤ
  normalization_needed : Bool
  harmonic_ampl_enabled : List Bool
  harmonic_phase_enabled : List Bool
  fade_duration : ℕ
  key_buffers : List (Option (List ℝ))
  buffer_states : List BufferState
  computation_cancel : Bool
  should_reset_chart_view : Bool

/-- `SharedParams::populate_piano_periods` from src/engine/shared_params.rs:
for each of the 88 keys, the rounded sample period `round(44100 / frequency)`
at the key's fundamental frequency. -/
noncomputable def SharedParams.populate_piano_periods : List ℤ :=
  (List.range NUM_KEYS).map fun key =>
    round ((44100 : ℝ) / key_frequency key)

/-- `SharedParams::new` from src/engine/shared_params.rs. -/
noncomputable def SharedParams.new (num_harmonics buckets : ℕ) : SharedParams :=
  { amplitude_data := List.replicate num_harmonics (List.replicate buckets (0 : ℝ))
    amplitude_data_normalized := List.replicate num_harmonics (List.replicate buckets (0 : ℝ))
    phase_data := List.replicate num_harmonics (List.replicate buckets (0 : ℝ))
    voices := List.replicate NUM_KEYS none
    assembled_sound_plotted := []
    piano_periods := SharedParams.populate_piano_periods
    normalization_needed := false
    harmonic_ampl_enabled := List.replicate num_harmonics true
    harmonic_phase_enabled := List.replicate num_harmonics true
    fade_duration := 128
    key_buffers := List.replicate NUM_KEYS none
    buffer_states := List.replicate NUM_KEYS BufferState.Dirty
    computation_cancel := false
    should_reset_chart_view := false }

/-- `SharedParams::mark_all_buffers_dirty` from src/engine/shared_params.rs:
store `true` into the cancellation flag, then rewrite every non-Dirty buffer
state to Dirty. -/
def SharedParams.mark_all_buffers_dirty (p : SharedParams) : SharedParams :=
  { p with
    computation_cancel := true
    buffer_states := p.buffer_states.map fun state =>
      if state ≠ BufferState.Dirty then BufferState.Dirty else state }

/-- `SharedParams::mark_buffer_dirty` from src/engine/shared_params.rs:
if `key < NUM_KEYS`, set that key's buffer state to Dirty when it is not
already Dirty; otherwise do nothing.  (The Rust in-bounds index read is
modelled with `List.getD`.) -/
def SharedParams.mark_buffer_dirty (p : SharedParams) (key : ℕ) : SharedParams :=
  if key < NUM_KEYS then
    { p with
      buffer_states :=
        if p.buffer_states.getD key BufferState.Dirty ≠ BufferState.Dirty then
          p.buffer_states.set key BufferState.Dirty
        else
          p.buffer_states }
  else p

/-! ### Helper lemmas -/

lemma set_dirty_cond_eq (l : List BufferState) (key : ℕ) :
    (if l.getD key BufferState.Dirty ≠ BufferState.Dirty then
      l.set key BufferState.Dirty else l) = l.set key BufferState.Dirty := by
  induction l generalizing key with
  | nil => simp
  | cons a t ih =>
    cases key with
    | zero =>
      cases a <;> simp
    | succ k =>
      have h := ih k
      simp only [List.getD_cons_succ, List.set_cons_succ]
      by_cases hc : t.getD k BufferState.Dirty = BufferState.Dirty
      · rw [if_neg (fun hne => hne hc)]
        rw [if_neg (fun hne => hne hc)] at h
        exact congrArg (List.cons a) h
      · rw [if_pos hc]

lemma twoPow_pos (k : ℕ) : 0 < (2 : ℝ) ^ ((k : ℝ) / 12) :=
  Real.rpow_pos_of_pos (by norm_num) _

lemma key_frequency_pos (k : ℕ) : 0 < key_frequency k := by
  have h := twoPow_pos k
  rw [key_frequency]
  nlinarith

lemma twoPow_pow_twelve (k : ℕ) : ((2 : ℝ) ^ ((k : ℝ) / 12)) ^ (12 : ℕ) = 2 ^ k := by
  rw [← Real.rpow_natCast ((2 : ℝ) ^ ((k : ℝ) / 12)) 12,
    ← Real.rpow_mul (by norm_num : (0 : ℝ) ≤ 2),
    show (k : ℝ) / 12 * ((12 : ℕ) : ℝ) = (k : ℝ) by push_cast; ring]
  exact Real.rpow_natCast 2 k

/-- Lower bracketing of `a * 2^(k/12)` by a rational check on naturals. -/
lemma scaled_twoPow_le (k a c : ℕ) (h : 2 ^ k * a ^ 12 ≤ c ^ 12) :
    (a : ℝ) * (2 : ℝ) ^ ((k : ℝ) / 12) ≤ c := by
  have hx := twoPow_pos k
  have h12 : ((a : ℝ) * (2 : ℝ) ^ ((k : ℝ) / 12)) ^ (12 : ℕ) ≤ (c : ℝ) ^ (12 : ℕ) := by
    rw [mul_pow, twoPow_pow_twelve]
    have hc : ((2 ^ k * a ^ 12 : ℕ) : ℝ) ≤ ((c ^ 12 : ℕ) : ℝ) := Nat.cast_le.mpr h
    push_cast at hc
    nlinarith
  exact (pow_le_pow_iff_left (by positivity) (by positivity) (by norm_num)).mp h12

lemma scaled_twoPow_lt (k a c : ℕ) (h : 2 ^ k * a ^ 12 < c ^ 12) :
    (a : ℝ) * (2 : ℝ) ^ ((k : ℝ) / 12) < c := by
  have hx := twoPow_pos k
  have h12 : ((a : ℝ) * (2 : ℝ) ^ ((k : ℝ) / 12)) ^ (12 : ℕ) < (c : ℝ) ^ (12 : ℕ) := by
    rw [mul_pow, twoPow_pow_twelve]
    have hc : ((2 ^ k * a ^ 12 : ℕ) : ℝ) < ((c ^ 12 : ℕ) : ℝ) := Nat.cast_lt.mpr h
    push_cast at hc
    nlinarith
  exact (pow_lt_pow_iff_left (by positivity) (by positivity) (by norm_num)).mp h12

lemma lt_scaled_twoPow (k a c : ℕ) (h : c ^ 12 < 2 ^ k * a ^ 12) :
    (c : ℝ) < (a : ℝ) * (2 : ℝ) ^ ((k : ℝ) / 12) := by
  have hx := twoPow_pos k
  have h12 : (c : ℝ) ^ (12 : ℕ) < ((a : ℝ) * (2 : ℝ) ^ ((k : ℝ) / 12)) ^ (12 : ℕ) := by
    rw [mul_pow, twoPow_pow_twelve]
    have hc : ((c ^ 12 : ℕ) : ℝ) < ((2 ^ k * a ^ 12 : ℕ) : ℝ) := Nat.cast_lt.mpr h
    push_cast at hc
    nlinarith
  exact (pow_lt_pow_iff_left (by positivity) (by positivity) (by norm_num)).mp h12

/-- Decidable certificate that `round (44100 / key_frequency k) = n`:
`n - 1/2 ≤ 44100 / (27.5 * 2^(k/12)) < n + 1/2`, with denominators cleared
and both sides raised to the 12th power. -/
def periodCheck (k : ℕ) (n : ℤ) : Bool :=
  decide (1 ≤ n) &&
    decide (2 ^ k * (11 * (2 * n.toNat - 1)) ^ 12 ≤ 35280 ^ 12) &&
    decide (35280 ^ 12 < 2 ^ k * (11 * (2 * n.toNat + 1)) ^ 12)

lemma round_period_eq (k : ℕ) (n : ℤ) (h : periodCheck k n = true) :
    round ((44100 : ℝ) / key_frequency k) = n := by
  rw [periodCheck, Bool.and_eq_true, Bool.and_eq_true, decide_eq_true_eq,
    decide_eq_true_eq, decide_eq_true_eq] at h
  obtain ⟨⟨hn, h1⟩, h2⟩ := h
  set m : ℕ := n.toNat with hm
  have hnm : (n : ℝ) = (m : ℝ) := by
    rw [hm]
    exact_mod_cast (Int.toNat_of_nonneg (by omega)).symm
  have hx := twoPow_pos k
  have hf : (0 : ℝ) < 27.5 * (2 : ℝ) ^ ((k : ℝ) / 12) := by nlinarith
  have hA := scaled_twoPow_le k (11 * (2 * m - 1)) 35280 h1
  have hB := lt_scaled_twoPow k (11 * (2 * m + 1)) 35280 h2
  have hsub : ((11 * (2 * m - 1) : ℕ) : ℝ) = 22 * (m : ℝ) - 11 := by
    have h2m : 1 ≤ 2 * m := by omega
    push_cast [Nat.cast_sub h2m]
    ring
  rw [hsub] at hA
  have hcast : ((11 * (2 * m + 1) : ℕ) : ℝ) = 22 * (m : ℝ) + 11 := by
    push_cast
    ring
  rw [hcast] at hB
  rw [round_eq, Int.floor_eq_iff]
  simp only [key_frequency]
  constructor
  · rw [hnm]
    have hL : (m : ℝ) - 1 / 2 ≤ 44100 / (27.5 * (2 : ℝ) ^ ((k : ℝ) / 12)) := by
      rw [le_div_iff hf]
      nlinarith
    linarith
  · rw [hnm]
    have hR : 44100 / (27.5 * (2 : ℝ) ^ ((k : ℝ) / 12)) < (m : ℝ) + 1 / 2 := by
      rw [div_lt_iff hf]
      nlinarith
    linarith

/-- The 88 sample periods actually produced by
`SharedParams.populate_piano_periods`, as concrete integers (verified against
the rounding formula in `populate_piano_periods_eq`). -/
def pianoPeriodValues : List ℤ :=
  [1604, 1514, 1429, 1348, 1273, 1201, 1134, 1070, 1010, 954, 900, 849,
   802, 757, 714, 674, 636, 601, 567, 535, 505, 477, 450, 425,
   401, 378, 357, 337, 318, 300, 283, 268, 253, 238, 225, 212,
   200, 189, 179, 169, 159, 150, 142, 134, 126, 119, 113, 106,
   100, 95, 89, 84, 80, 75, 71, 67, 63, 60, 56, 53,
   50, 47, 45, 42, 40, 38, 35, 33, 32, 30, 28, 27,
   25, 24, 22, 21, 20, 19, 18, 17, 16, 15, 14, 13,
   13, 12, 11, 11]

lemma pianoPeriodValues_check :
    ((List.range 88).all fun k => periodCheck k (pianoPeriodValues.getD k 0)) = true := by
  decide

lemma populate_piano_periods_eq :
    SharedParams.populate_piano_periods = pianoPeriodValues := by
  apply List.ext_getElem
  · simp [SharedParams.populate_piano_periods, NUM_KEYS, pianoPeriodValues]
  · intro i h1 h2
    have hi : i < 88 := by
      simpa [SharedParams.populate_piano_periods, NUM_KEYS] using h1
    simp only [SharedParams.populate_piano_periods, List.getElem_map, List.getElem_range]
    rw [← List.getD_eq_getElem pianoPeriodValues 0 h2]
    exact round_period_eq i _
      (List.all_eq_true.mp pianoPeriodValues_check i (List.mem_range.mpr hi))

/-- Decidable certificate that an integer fraction `p / q` lies strictly
within `2.0 ± 0.1`: `|10 p - 20 q| < q` with `q > 0`. -/
def octaveCheck (p q : ℤ) : Bool :=
  decide (0 < q) && decide ((10 * p - 20 * q).natAbs < q.natAbs)

lemma ratio_near_two (p q : ℤ) (h : octaveCheck p q = true) :
    |(p : ℝ) / (q : ℝ) - 2| < 0.1 := by
  rw [octaveCheck, Bool.and_eq_true, decide_eq_true_eq, decide_eq_true_eq] at h
  obtain ⟨hq, habs⟩ := h
  have h1 : |10 * p - 20 * q| < q := by
    rw [Int.abs_eq_natAbs]
    omega
  have h2 : |10 * (p : ℝ) - 20 * (q : ℝ)| < (q : ℝ) := by exact_mod_cast h1
  have hq' : (0 : ℝ) < (q : ℝ) := by exact_mod_cast hq
  rw [abs_lt] at h2 ⊢
  constructor
  · have hlow : (1.9 : ℝ) < (p : ℝ) / (q : ℝ) := by
      rw [lt_div_iff hq']
      nlinarith [h2.1]
    linarith
  · have hhigh : (p : ℝ) / (q : ℝ) < (2.1 : ℝ) := by
      rw [div_lt_iff hq']
      nlinarith [h2.2]
    linarith

lemma pianoPeriodValues_octave_check :
    ((List.range 76).all fun k =>
      octaveCheck (pianoPeriodValues.getD k 0) (pianoPeriodValues.getD (k + 12) 0)) = true := by
  decide

/-- Decidable certificate that `⌊22050 / key_frequency k⌋ = m` with the
strict bound `m * key_frequency k < 22050`: denominators cleared and both
sides raised to the 12th power. -/
def capCheck (k m : ℕ) : Bool :=
  decide (1 ≤ m) &&
    decide (2 ^ k * (55 * m) ^ 12 < 44100 ^ 12) &&
    decide (44100 ^ 12 < 2 ^ k * (55 * (m + 1)) ^ 12)

lemma cap_eq_of_check (k m : ℕ) (h : capCheck k m = true) :
    aliasing_cap k = m ∧
    (m : ℝ) * key_frequency k < 22050 ∧
    ∀ j : ℕ, (j : ℝ) * key_frequency k < 22050 → j ≤ m := by
  rw [capCheck, Bool.and_eq_true, Bool.and_eq_true, decide_eq_true_eq,
    decide_eq_true_eq, decide_eq_true_eq] at h
  obtain ⟨⟨hm, h1⟩, h2⟩ := h
  have hx := twoPow_pos k
  have hf : (0 : ℝ) < 27.5 * (2 : ℝ) ^ ((k : ℝ) / 12) := by nlinarith
  have hA := scaled_twoPow_lt k (55 * m) 44100 h1
  have hB := lt_scaled_twoPow k (55 * (m + 1)) 44100 h2
  push_cast at hA hB
  have hfreq : key_frequency k = 27.5 * (2 : ℝ) ^ ((k : ℝ) / 12) := rfl
  have hdivlt : 22050 / (27.5 * (2 : ℝ) ^ ((k : ℝ) / 12)) < (m : ℝ) + 1 := by
    rw [div_lt_iff hf]
    nlinarith
  have hmul : (m : ℝ) * (27.5 * (2 : ℝ) ^ ((k : ℝ) / 12)) < 22050 := by nlinarith
  have hfloor : ⌊NYQUIST_FREQUENCY / key_frequency k⌋ = (m : ℤ) := by
    have hnyq : NYQUIST_FREQUENCY = (22050 : ℝ) := by
      rw [NYQUIST_FREQUENCY, SAMPLE_RATE]
      norm_num
    rw [hnyq, hfreq, Int.floor_eq_iff]
    constructor
    · push_cast
      rw [le_div_iff hf]
      nlinarith
    · push_cast
      exact hdivlt
  refine ⟨?_, ?_, ?_⟩
  · rw [aliasing_cap, hfloor, Int.toNat_natCast]
  · rw [hfreq]
    exact hmul
  · intro j hj
    rw [hfreq] at hj
    have hjlt : (j : ℝ) < (m : ℝ) + 1 := by
      have := (lt_div_iff hf).mpr hj
      linarith [this, hdivlt]
    have : j < m + 1 := by exact_mod_cast hjlt
    omega

/-- The 88 uncapped aliasing bounds actually produced inside
`max_harmonic_for_key` (verified against the floor formula via
`capCheck`). -/
def capValues : List ℕ :=
  [801, 756, 714, 674, 636, 600, 566, 535, 505, 476, 450, 424,
   400, 378, 357, 337, 318, 300, 283, 267, 252, 238, 225, 212,
   200, 189, 178, 168, 159, 150, 141, 133, 126, 119, 112, 106,
   100, 94, 89, 84, 79, 75, 70, 66, 63, 59, 56, 53,
   50, 47, 44, 42, 39, 37, 35, 33, 31, 29, 28, 26,
   25, 23, 22, 21, 19, 18, 17, 16, 15, 14, 14, 13,
   12, 11, 11, 10, 9, 9, 8, 8, 7, 7, 7, 6,
   6, 5, 5, 5]

lemma capValues_check :
    ((List.range 88).all fun k => capCheck k (capValues.getD k 0)) = true := by
  decide

lemma aliasing_cap_eq (k : ℕ) (hk : k < 88) :
    aliasing_cap k = capValues.getD k 0 :=
  (cap_eq_of_check k _
    (List.all_eq_true.mp capValues_check k (List.mem_range.mpr hk))).1

lemma max_harmonic_eq_min (k : ℕ) (hk : k < 88) :
    max_harmonic_for_key k = min (aliasing_cap k) 64 := by
  rw [max_harmonic_for_key, aliasing_cap, if_neg]
  · rfl
  · simp only [NUM_KEYS]
    omega

set_option maxRecDepth 4000 in
lemma capValues_min_antitone :
    ∀ i, i < 88 → ∀ j, j < 88 → i ≤ j →
      min (capValues.getD j 0) 64 ≤ min (capValues.getD i 0) 64 := by
  decide

/-- A concrete `SharedParams` value used to instantiate universally
quantified theorems at an explicit input. -/
def sampleParams : SharedParams :=
  { amplitude_data := []
    amplitude_data_normalized := []
    phase_data := []
    voices := []
    assembled_sound_plotted := []
    piano_periods := []
    normalization_needed := false
    harmonic_ampl_enabled := []
    harmonic_phase_enabled := []
    fade_duration := 128
    key_buffers := []
    buffer_states := [BufferState.Clean, BufferState.Computing, BufferState.Dirty]
    computation_cancel := false
    should_reset_chart_view := false }

/-! ### Claims about Voice -/

/-- C6: a voice created via `Voice.new buf` starts with `fade_in_active = true`,
`idx = 0`, `fade_out_active = false`, `fade_in_pos = 0` and `fade_out_pos = 0`;
`start_fade_out` on any voice sets `fade_out_active = true` and
`fade_out_pos = 0`; and for a freshly created voice `is_fading` is true both
before and after the `start_fade_out` call. -/
theorem voice_new_fade_spec (buf : List ℝ) (v : Voice) :
    (Voice.new buf).fade_in_active = true ∧
    (Voice.new buf).idx = 0 ∧
    (Voice.new buf).fade_out_active = false ∧
    (Voice.new buf).fade_in_pos = 0 ∧
    (Voice.new buf).fade_out_pos = 0 ∧
    v.start_fade_out.fade_out_active = true ∧
    v.start_fade_out.fade_out_pos = 0 ∧
    (Voice.new buf).is_fading = true ∧
    (Voice.new buf).start_fade_out.is_fading = true :=
  ⟨rfl, rfl, rfl, rfl, rfl, rfl, rfl, rfl, rfl⟩

/-- C7: `is_fading` returns true exactly when `fade_in_active` or
`fade_out_active` is set, and `start_fade_out` is idempotent: two calls in a
row give the same voice state as one call. -/
theorem voice_is_fading_iff_and_start_fade_out_idem (v : Voice) :
    (v.is_fading = true ↔ (v.fade_in_active = true ∨ v.fade_out_active = true)) ∧
    v.start_fade_out.start_fade_out = v.start_fade_out :=
  ⟨by simp [Voice.is_fading], rfl⟩

/-- C10: `start_fade_out` only touches `fade_out_active` and `fade_out_pos`:
`buffer`, `idx`, `fade_in_active` and `fade_in_pos` are unchanged, so a voice
still fading in when `start_fade_out` is called has both fade flags set
simultaneously. -/
theorem start_fade_out_frame (v : Voice) (buf : List ℝ) :
    v.start_fade_out.buffer = v.buffer ∧
    v.start_fade_out.idx = v.idx ∧
    v.start_fade_out.fade_in_active = v.fade_in_active ∧
    v.start_fade_out.fade_in_pos = v.fade_in_pos ∧
    (Voice.new buf).start_fade_out.fade_in_active = true ∧
    (Voice.new buf).start_fade_out.fade_out_active = true :=
  ⟨rfl, rfl, rfl, rfl, rfl, rfl⟩

/-! ### Claims about SharedParams -/

/-- C1: `mark_all_buffers_dirty` sets every per-key buffer state to Dirty
(whatever its prior state) and sets the cancellation flag to true, preserving
the number of buffer states. -/
theorem mark_all_buffers_dirty_spec (p : SharedParams) (i : ℕ)
    (h : i < p.mark_all_buffers_dirty.buffer_states.length) :
    p.mark_all_buffers_dirty.buffer_states.get ⟨i, h⟩ = BufferState.Dirty ∧
    p.mark_all_buffers_dirty.computation_cancel = true ∧
    p.mark_all_buffers_dirty.buffer_states.length = p.buffer_states.length := by
  refine ⟨?_, rfl, by simp [SharedParams.mark_all_buffers_dirty]⟩
  have hl : i < p.buffer_states.length := by
    simpa [SharedParams.mark_all_buffers_dirty] using h
  show (p.buffer_states.map fun state =>
      if state ≠ BufferState.Dirty then BufferState.Dirty else state).get ⟨i, h⟩
      = BufferState.Dirty
  rw [List.get_map]
  cases p.buffer_states.get ⟨i, hl⟩ <;> rfl

/-- C1 witness: instantiation at a concrete state whose buffer states are
Clean, Computing and Dirty. -/
theorem mark_all_buffers_dirty_spec_witness :
    sampleParams.mark_all_buffers_dirty.buffer_states.get
        ⟨0, by decide⟩ = BufferState.Dirty ∧
    sampleParams.mark_all_buffers_dirty.computation_cancel = true ∧
    sampleParams.mark_all_buffers_dirty.buffer_states.length
      = sampleParams.buffer_states.length :=
  mark_all_buffers_dirty_spec sampleParams 0 (by decide)

/-- C2 counterexample: the claim asserts `mark_buffer_dirty` raises the
cancellation flag, but on a state whose flag is false, marking key 0 dirty
leaves the flag false. -/
theorem mark_buffer_dirty_no_cancel :
    (sampleParams.mark_buffer_dirty 0).computation_cancel = false ∧
    sampleParams.computation_cancel = false := by
  constructor <;> rfl

/-- C2 (amended): for `key < 88`, `mark_buffer_dirty key` sets exactly that
key's buffer state to Dirty regardless of its current state and leaves the
cancellation flag unchanged; for `key ≥ 88` the call is a complete no-op. -/
theorem mark_buffer_dirty_spec (p : SharedParams) (key : ℕ) :
    (key < 88 →
      (p.mark_buffer_dirty key).buffer_states
        = p.buffer_states.set key BufferState.Dirty) ∧
    (p.mark_buffer_dirty key).computation_cancel = p.computation_cancel ∧
    (88 ≤ key → p.mark_buffer_dirty key = p) := by
  refine ⟨fun hk => ?_, ?_, fun hk => ?_⟩
  · simp only [SharedParams.mark_buffer_dirty, NUM_KEYS]
    rw [if_pos hk]
    exact set_dirty_cond_eq p.buffer_states key
  · rw [SharedParams.mark_buffer_dirty]
    split <;> rfl
  · simp only [SharedParams.mark_buffer_dirty, NUM_KEYS]
    rw [if_neg (by omega)]

/-- C2 witness: instantiation at a concrete state, for in-range key 0 and
out-of-range key 100. -/
theorem mark_buffer_dirty_spec_witness :
    (sampleParams.mark_buffer_dirty 0).buffer_states
      = sampleParams.buffer_states.set 0 BufferState.Dirty ∧
    (sampleParams.mark_buffer_dirty 0).computation_cancel
      = sampleParams.computation_cancel ∧
    sampleParams.mark_buffer_dirty 100 = sampleParams :=
  ⟨(mark_buffer_dirty_spec sampleParams 0).1 (by decide),
   (mark_buffer_dirty_spec sampleParams 0).2.1,
   (mark_buffer_dirty_spec sampleParams 100).2.2 (by decide)⟩

/-- C5: `SharedParams.new num_harmonics buckets` starts with all 88 buffer
states Dirty, all 88 key buffers absent, all 88 voice slots empty, the
cancellation flag false, `fade_duration = 128`, amplitude and phase tables of
`num_harmonics` rows of `buckets` zeros each, and every amplitude-enable and
phase-enable flag true. -/
theorem shared_params_new_spec (num_harmonics buckets : ℕ) :
    (SharedParams.new num_harmonics buckets).buffer_states
      = List.replicate 88 BufferState.Dirty ∧
    (SharedParams.new num_harmonics buckets).key_buffers
      = List.replicate 88 none ∧
    (SharedParams.new num_harmonics buckets).voices
      = List.replicate 88 none ∧
    (SharedParams.new num_harmonics buckets).computation_cancel = false ∧
    (SharedParams.new num_harmonics buckets).fade_duration = 128 ∧
    (SharedParams.new num_harmonics buckets).amplitude_data
      = List.replicate num_harmonics (List.replicate buckets (0 : ℝ)) ∧
    (SharedParams.new num_harmonics buckets).phase_data
      = List.replicate num_harmonics (List.replicate buckets (0 : ℝ)) ∧
    (SharedParams.new num_harmonics buckets).harmonic_ampl_enabled
      = List.replicate num_harmonics true ∧
    (SharedParams.new num_harmonics buckets).harmonic_phase_enabled
      = List.replicate num_harmonics true :=
  ⟨rfl, rfl, rfl, rfl, rfl, rfl, rfl, rfl, rfl⟩

/-! ### Claims about the piano period table -/

/-- C3: the piano period table built at construction has exactly 88 entries,
and entry `k` is the integer `round(44100 / (27.5 * 2^(k/12)))`. -/
theorem populate_piano_periods_spec :
    SharedParams.populate_piano_periods.length = 88 ∧
    ∀ k, k < 88 →
      SharedParams.populate_piano_periods.getD k 0
        = round ((44100 : ℝ) / (27.5 * (2 : ℝ) ^ ((k : ℝ) / 12))) := by
  constructor
  · simp [SharedParams.populate_piano_periods, NUM_KEYS]
  · intro k hk
    have hlen : k < SharedParams.populate_piano_periods.length := by
      simpa [SharedParams.populate_piano_periods, NUM_KEYS] using hk
    rw [List.getD_eq_getElem _ _ hlen]
    simp only [SharedParams.populate_piano_periods, List.getElem_map,
      List.getElem_range, key_frequency]

/-- C3 witness: entry 0 of the table is the rounding formula at key 0. -/
theorem populate_piano_periods_spec_witness :
    SharedParams.populate_piano_periods.getD 0 0
      = round ((44100 : ℝ) / (27.5 * (2 : ℝ) ^ (((0 : ℕ) : ℝ) / 12))) :=
  populate_piano_periods_spec.2 0 (by norm_num)

/-- C8: one octave up (12 keys) halves the constructed sample period to
within rounding tolerance: the entry ratio `period(k) / period(k+12)` lies
strictly within `2.0 ± 0.1` whenever both keys are valid. -/
theorem piano_period_octave_halving (k : ℕ) (h : k + 12 < 88) :
    |(SharedParams.populate_piano_periods.getD k 0 : ℝ)
        / (SharedParams.populate_piano_periods.getD (k + 12) 0 : ℝ) - 2| < 0.1 := by
  rw [populate_piano_periods_eq]
  exact ratio_near_two _ _
    (List.all_eq_true.mp pianoPeriodValues_octave_check k
      (List.mem_range.mpr (by omega)))

/-- C8 witness: keys 0 and 12 have periods 1604 and 802, whose ratio is
exactly 2. -/
theorem piano_period_octave_halving_witness :
    |(SharedParams.populate_piano_periods.getD 0 0 : ℝ)
        / (SharedParams.populate_piano_periods.getD (0 + 12) 0 : ℝ) - 2| < 0.1 :=
  piano_period_octave_halving 0 (by norm_num)

/-! ### Claims about max_harmonic_for_key -/

/-- C4: for every key below 88, `max_harmonic_for_key` equals the highest
harmonic number whose frequency `h * 27.5 * 2^(key/12)` stays strictly below
the Nyquist frequency 22050, clamped to at most 64; it is monotonically
non-increasing in the key index, exceeds 50 at key 0, is below 10 at key 87,
and is 0 at the out-of-range key 88. -/
theorem max_harmonic_for_key_spec :
    (∀ key : ℕ, key < 88 →
      IsGreatest {h : ℕ | (h : ℝ) * (27.5 * (2 : ℝ) ^ ((key : ℝ) / 12)) < 22050}
        (aliasing_cap key) ∧
      max_harmonic_for_key key = min (aliasing_cap key) 64) ∧
    Antitone max_harmonic_for_key ∧
    50 < max_harmonic_for_key 0 ∧
    max_harmonic_for_key 87 < 10 ∧
    max_harmonic_for_key 88 = 0 := by
  have hcap : ∀ key, key < 88 →
      aliasing_cap key = capValues.getD key 0 ∧
      (aliasing_cap key : ℝ) * key_frequency key < 22050 ∧
      ∀ j : ℕ, (j : ℝ) * key_frequency key < 22050 → j ≤ aliasing_cap key := by
    intro key hk
    obtain ⟨he, hmem, hub⟩ := cap_eq_of_check key _
      (List.all_eq_true.mp capValues_check key (List.mem_range.mpr hk))
    rw [← he] at hmem hub ⊢
    exact ⟨rfl, hmem, hub⟩
  have hzero : ∀ key, 88 ≤ key → max_harmonic_for_key key = 0 := by
    intro key hk
    rw [max_harmonic_for_key, if_pos]
    simp only [NUM_KEYS]
    omega
  refine ⟨fun key hk => ?_, ?_, ?_, ?_, hzero 88 le_rfl⟩
  · obtain ⟨he, hmem, hub⟩ := hcap key hk
    exact ⟨⟨hmem, fun j hj => hub j hj⟩, max_harmonic_eq_min key hk⟩
  · intro a b hab
    by_cases hb : b < 88
    · have ha : a < 88 := lt_of_le_of_lt hab hb
      rw [max_harmonic_eq_min a ha, max_harmonic_eq_min b hb,
        (hcap a ha).1, (hcap b hb).1]
      exact capValues_min_antitone a ha b hb hab
    · rw [hzero b (by omega)]
      exact Nat.zero_le _
  · rw [max_harmonic_eq_min 0 (by norm_num), (hcap 0 (by norm_num)).1]
    decide
  · rw [max_harmonic_eq_min 87 (by norm_num), (hcap 87 (by norm_num)).1]
    decide

/-- C4 witness: instantiation at keys 0 (the greatest-harmonic
characterization), 3 and 5 (monotonicity). -/
theorem max_harmonic_for_key_spec_witness :
    (IsGreatest {h : ℕ | (h : ℝ) * (27.5 * (2 : ℝ) ^ (((0 : ℕ) : ℝ) / 12)) < 22050}
        (aliasing_cap 0) ∧
      max_harmonic_for_key 0 = min (aliasing_cap 0) 64) ∧
    max_harmonic_for_key 5 ≤ max_harmonic_for_key 3 :=
  ⟨max_harmonic_for_key_spec.1 0 (by norm_num),
   max_harmonic_for_key_spec.2.1 (by norm_num : (3 : ℕ) ≤ 5)⟩

/-! ### Claims about the parameter range constants -/

/-- C9 counterexample: the claim says the phase upper bound is 2π, but the
declared constant is 6.28, which is not 2π. -/
theorem max_offset_phase_ne_two_pi : MAX_OFFSET_PHASE ≠ 2 * Real.pi := by
  intro h
  rw [MAX_OFFSET_PHASE] at h
  nlinarith [Real.pi_gt_d2, h]

/-- C9 (amended): the declared parameter ranges are: amplitude offset and
amplitude sine-amplitude in [0,1]; phase offset and phase sine-amplitude in
[0, 6.28], where 6.28 approximates 2π to within 0.01 but is not exactly 2π;
sine frequency in [0, 0.35]; bucket count in [30, 2000] with default 70; and
harmonic count fixed at 64. -/
theorem parameter_ranges_spec :
    MIN_OFFSET_AMP = 0 ∧ MAX_OFFSET_AMP = 1 ∧
    MIN_AMP_SINE_AMP = 0 ∧ MAX_AMP_SINE_AMP = 1 ∧
    MIN_OFFSET_PHASE = 0 ∧ MAX_OFFSET_PHASE = 6.28 ∧
    MIN_PHASE_SINE_AMP = 0 ∧ MAX_PHASE_SINE_AMP = 6.28 ∧
    |MAX_OFFSET_PHASE - 2 * Real.pi| < 0.01 ∧
    MIN_SINE_FREQ = 0 ∧ MAX_SINE_FREQ = 0.35 ∧
    NUM_OF_BUCKETS_MIN = 30 ∧ NUM_OF_BUCKETS_MAX = 2000 ∧
    NUM_OF_BUCKETS_DEFAULT = 70 ∧ NUM_HARMONICS = 64 := by
  refine ⟨by norm_num [MIN_OFFSET_AMP], by norm_num [MAX_OFFSET_AMP],
    by norm_num [MIN_AMP_SINE_AMP], by norm_num [MAX_AMP_SINE_AMP],
    by norm_num [MIN_OFFSET_PHASE], rfl,
    by norm_num [MIN_PHASE_SINE_AMP], rfl, ?_,
    by norm_num [MIN_SINE_FREQ], rfl, rfl, rfl, rfl, rfl⟩
  rw [MAX_OFFSET_PHASE, abs_lt]
  constructor <;> nlinarith [Real.pi_gt_d6, Real.pi_lt_d6]

end LeSynth
